import Mathlib

/-!
Verification development for the day-ahead-prices repository
(`ha_entsoe.py` and `api_server.py`).

Modelling conventions (shallow embedding):
* Python `datetime` values (both UTC instants and naive/aware local times)
  are modelled as integers counting minutes on an absolute axis; a
  `timedelta` is an integer number of minutes.  `datetime.date` values are
  modelled as integers (day numbers).  String formatting of timestamps
  (`strftime`) is dropped: the formatted `hour_local` field is modelled by
  the timestamp value itself (the format `YYYY-MM-DD HH:MM` is injective
  and monotone on the minute-valued timestamps the code produces).
* `astimezone` / `pytz.localize` conversions are modelled by an abstract
  function `toLocal : Int -> Int` passed as a parameter where it matters
  (time-axis reconstruction); for the slot classifiers the parse+localize
  composite is modelled as the identity on the modelled minute axis, so
  `now` lives on the same axis as the slots.
* Python `float` values are modelled as exact rationals; `int` values as
  integers.  Python `round` is round-half-to-even, modelled exactly on
  rationals.  `float(...)`/`int(...)` string parsing is modelled by
  executable parsers below; Python underscore digit-grouping and
  `inf`/`nan` literals are not modelled (for the composite
  `int(float(pos))` used by the code, `inf`/`nan` raise in Python, i.e.
  the point is dropped, which coincides with the model's `none`).
* Python's stable `sorted` is modelled by `List.insertionSort` (stable).
* A raised exception is modelled by `Except.error`.
-/

/-- Numeric value of a list of decimal digit characters. -/
def digitsVal (cs : List Char) : Nat :=
  cs.foldl (fun a c => a * 10 + (c.toNat - 48)) 0

/-- True when every character is a decimal digit. -/
def allDigits (cs : List Char) : Bool :=
  cs.all fun c => c.isDigit

/-- Uppercase a string (models `str.upper` for the ASCII strings involved). -/
def toUpperStr (s : String) : String :=
  ⟨s.data.map Char.toUpper⟩

/-- Strip surrounding whitespace (models `str.strip()` as done by `int`/`float`). -/
def trimStr (s : String) : String :=
  ⟨((s.data.dropWhile Char.isWhitespace).reverse.dropWhile Char.isWhitespace).reverse⟩

/-- Models `str.startswith`. -/
def startsWithStr (s p : String) : Bool :=
  p.data.isPrefixOf s.data

/-- Models `str.endswith`. -/
def endsWithStr (s p : String) : Bool :=
  p.data.reverse.isPrefixOf s.data.reverse

/-- Models the Python slice `r[2:-1]`. -/
def sliceMid (s : String) : String :=
  ⟨(s.data.drop 2).dropLast⟩

/-- Split an optional leading sign; returns (isNegative, remaining chars). -/
def signSplit (cs : List Char) : Bool × List Char :=
  match cs with
  | c :: r => if c = '-' then (true, r) else if c = '+' then (false, cs.tail) else (false, cs)
  | [] => (false, [])

/-- Models Python `int(s)` on a string: optional sign, nonempty digits,
surrounding whitespace allowed; `none` models a raised `ValueError`. -/
def pyIntParse (s : String) : Option Int :=
  let sr := signSplit (trimStr s).data
  if !sr.2.isEmpty && allDigits sr.2 then
    some (if sr.1 then -(digitsVal sr.2 : Int) else (digitsVal sr.2 : Int))
  else none

/-- Truthiness of an optional string (Python `if not res_text`). -/
def pyTruthyStr (o : Option String) : Bool :=
  match o with
  | none => false
  | some s => !s.isEmpty

/-- Python `a or b` on two optional strings ("" and None are falsy). -/
def pyOrStr (a b : Option String) : Option String :=
  if pyTruthyStr a then a else b

/-- Python `a or d` where `d` is a string default. -/
def strOr (a : Option String) (d : String) : String :=
  match a with
  | some s => if s.isEmpty then d else s
  | none => d

/-- `ha_entsoe.resolve_resolution_to_timedelta`.  Returns the step in
minutes.  `Except.error ()` models the `ValueError` raised by `int(r[2:-1])`
when the slice is not a valid integer literal. -/
def resolve_resolution_to_timedelta (res_text : Option String) : Except Unit Int :=
  if !pyTruthyStr res_text then .ok 60
  else
    let r := toUpperStr (res_text.getD (""))
    if startsWithStr r ("PT") && endsWithStr r ("M") then
      match pyIntParse (sliceMid r) with
      | some n => .ok n
      | none => .error ()
    else if startsWithStr r ("PT") && endsWithStr r ("H") then
      match pyIntParse (sliceMid r) with
      | some n => .ok (60 * n)
      | none => .error ()
    else if r = ("P1D") then .ok 1440
    else .ok 60


/-- Models Python `float(s)` on a string (decimal literal with optional
sign, fraction and exponent).  `none` models a raised `ValueError`;
`inf`/`nan` and underscore grouping are not modelled (see file header). -/
def pyFloat (s : String) : Option ℚ :=
  let sr := signSplit (trimStr s).data
  let mant := sr.2.takeWhile fun c => !(c = 'e' || c = 'E')
  let expPart := sr.2.dropWhile fun c => !(c = 'e' || c = 'E')
  let intPart := mant.takeWhile fun c => c ≠ '.'
  let frac := (mant.dropWhile fun c => c ≠ '.').tail
  if !(allDigits intPart && allDigits frac && (!intPart.isEmpty || !frac.isEmpty)) then none
  else
    let mval : ℚ := (digitsVal intPart : ℚ) + (digitsVal frac : ℚ) / ((10 : ℚ) ^ frac.length)
    let signed : ℚ := if sr.1 then -mval else mval
    match expPart with
    | [] => some signed
    | _ :: ecs =>
      let esr := signSplit ecs
      if !esr.2.isEmpty && allDigits esr.2 then
        let e : Int := if esr.1 then -(digitsVal esr.2 : Int) else (digitsVal esr.2 : Int)
        some (signed * (10 : ℚ) ^ e)
      else none


/-- Models Python `int(x)` applied to a float value: truncation toward zero. -/
def ratTrunc (q : ℚ) : Int :=
  if 0 ≤ q then ⌊q⌋ else -⌊-q⌋

/-- Round-half-to-even on rationals (the rounding used by Python `round`). -/
def roundHalfEven (x : ℚ) : Int :=
  let f := ⌊x⌋
  let r := x - f
  if r < 1/2 then f
  else if 1/2 < r then f + 1
  else if Even f then f else f + 1

/-- Models Python `round(q, nd)` on the exact rational model of floats. -/
def pyRound (nd : Nat) (q : ℚ) : ℚ :=
  (roundHalfEven (q * (10 : ℚ) ^ nd) : ℚ) / (10 : ℚ) ^ nd

/-- `ha_entsoe.eur_mwh_to_ct_kwh`. -/
def eur_mwh_to_ct_kwh (v : ℚ) : ℚ := v / 10

/-- One in-memory series item (the dicts built by `ts_points_to_series`). -/
structure SeriesItem where
  timestamp_local : Int
  price : Option ℚ
  quantity : Option ℚ
  resolution : String
deriving Repr, DecidableEq

/-- One step of bucket construction: Python `defaultdict(list)` keyed on
`timestamp_local`, preserving first-occurrence key order. -/
def upsertBucket (acc : List (Int × List SeriesItem)) (it : SeriesItem) :
    List (Int × List SeriesItem) :=
  if acc.any fun b => b.1 = it.timestamp_local then
    acc.map fun b => if b.1 = it.timestamp_local then (b.1, b.2 ++ [it]) else b
  else acc ++ [(it.timestamp_local, [it])]

/-- The buckets of `coalesce_by_timestamp`. -/
def bucketsOf (items : List SeriesItem) : List (Int × List SeriesItem) :=
  items.foldl upsertBucket []

/-- Pick the representative of one bucket according to `prefer`
(`last` / `first`, anything else is the mean branch). -/
def pickFromBucket (prefer : String) (arr : List SeriesItem) : Option SeriesItem :=
  match arr.getLast? with
  | none => none
  | some lastIt =>
    if prefer = ("last") then some lastIt
    else if prefer = ("first") then arr.head?
    else
      let prices := arr.filterMap fun x => x.price
      let qtys := arr.filterMap fun x => x.quantity
      let avgPrice : Option ℚ :=
        if prices.isEmpty then none else some (prices.sum / (prices.length : ℚ))
      let avgQty : Option ℚ :=
        if qtys.isEmpty then none else some (qtys.sum / (qtys.length : ℚ))
      some { lastIt with price := avgPrice, quantity := avgQty }

/-- Ordering of series items by local timestamp. -/
def itemLE (a b : SeriesItem) : Prop := a.timestamp_local ≤ b.timestamp_local

instance : DecidableRel itemLE :=
  fun a b => inferInstanceAs (Decidable (a.timestamp_local ≤ b.timestamp_local))

/-- `ha_entsoe.coalesce_by_timestamp`: bucket by exact `timestamp_local`,
pick per `prefer`, sort ascending by timestamp. -/
def coalesce_by_timestamp (items : List SeriesItem) (prefer : String) : List SeriesItem :=
  List.insertionSort itemLE ((bucketsOf items).filterMap fun b => pickFromBucket prefer b.2)

/-- A price row as returned by `rows_from_items_price`. -/
structure PriceRow where
  position : Nat
  hour_local : Int
  eur_per_mwh : ℚ
  ct_per_kwh : ℚ
  resolution : String
deriving Repr, DecidableEq

/-- A quantity row as returned by `rows_from_items_quantity`; `qkey` models
the dynamic dictionary key, `qvalue` its value. -/
structure QuantityRow where
  position : Nat
  hour_local : Int
  qkey : String
  qvalue : ℚ
  resolution : String
deriving Repr, DecidableEq

/-- The `for idx, it in enumerate(items, start=1)` loop of
`rows_from_items_price`: null-priced items are skipped but still consume
an index. -/
def rowsLoopPrice (idx : Nat) : List SeriesItem → List PriceRow
  | [] => []
  | it :: rest =>
    match it.price with
    | none => rowsLoopPrice (idx + 1) rest
    | some p =>
      { position := idx, hour_local := it.timestamp_local,
        eur_per_mwh := pyRound 6 p, ct_per_kwh := pyRound 6 (eur_mwh_to_ct_kwh p),
        resolution := strOr (some it.resolution) ("PT60M") } :: rowsLoopPrice (idx + 1) rest

/-- `ha_entsoe.rows_from_items_price`. -/
def rows_from_items_price (items : List SeriesItem) : List PriceRow :=
  rowsLoopPrice 1 (coalesce_by_timestamp items ("last"))

/-- The enumerate loop of `rows_from_items_quantity`. -/
def rowsLoopQty (qkey : String) (idx : Nat) : List SeriesItem → List QuantityRow
  | [] => []
  | it :: rest =>
    match it.quantity with
    | none => rowsLoopQty qkey (idx + 1) rest
    | some q =>
      { position := idx, hour_local := it.timestamp_local, qkey := qkey,
        qvalue := pyRound 3 q, resolution := strOr (some it.resolution) ("PT60M") }
        :: rowsLoopQty qkey (idx + 1) rest

/-- `ha_entsoe.rows_from_items_quantity`. -/
def rows_from_items_quantity (items : List SeriesItem) (qkey : String) : List QuantityRow :=
  rowsLoopQty qkey 1 (coalesce_by_timestamp items ("last"))

/-- A `Point` element: the three text nodes the code reads. -/
structure PointX where
  position_text : Option String
  price_text : Option String
  quantity_text : Option String

/-- A `Period` element.  `start_utc` models the already-parsed
`parse_iso_dt(timeInterval.start)` instant in minutes (`none` when the
element is missing, in which case the code falls back to UTC midnight of
the requested day, passed in as `defaultStart`). -/
structure PeriodX where
  start_utc : Option Int
  resolution_text : Option String
  points : List PointX

/-- A `TimeSeries` element; `loose_points` are the points found directly
under the TimeSeries (only consulted in the degenerate no-`Period` case). -/
structure TimeSeriesX where
  periods : List PeriodX
  ti_start : Option Int
  resolution_text : Option String
  loose_points : List PointX

/-- `ha_entsoe._safe_float`. -/
def safeFloat (o : Option String) : Option ℚ := o.bind pyFloat

/-- The position handling of the point loop: skip falsy text, else
`int(float(pos_txt))`, skipping on parse failure. -/
def parse_position (o : Option String) : Option Int :=
  match o with
  | none => none
  | some t => if t.isEmpty then none else (pyFloat t).map ratTrunc

/-- Series item built for one point of a period. -/
def mkSeriesItem (toLocal : Int → Int) (startUtc resTd : Int) (resStore : String)
    (pt : PointX) (p : Int) : SeriesItem :=
  { timestamp_local := toLocal (startUtc + (p - 1) * resTd),
    price := safeFloat pt.price_text,
    quantity := safeFloat pt.quantity_text,
    resolution := resStore }

/-- The `for p in period.findall(Point)` loop. -/
def pointsLoop (toLocal : Int → Int) (startUtc resTd : Int) (resStore : String) :
    List PointX → List SeriesItem
  | [] => []
  | pt :: rest =>
    match parse_position pt.position_text with
    | none => pointsLoop toLocal startUtc resTd resStore rest
    | some p => mkSeriesItem toLocal startUtc resTd resStore pt p
      :: pointsLoop toLocal startUtc resTd resStore rest

/-- Items contributed by a single `Period` element (one iteration of the
outer loop of `ts_points_to_series`); the error case models the
`ValueError` that `resolve_resolution_to_timedelta` can raise. -/
def period_points_to_items (toLocal : Int → Int) (defaultStart : Int)
    (tsRes : Option String) (per : PeriodX) : Except Unit (List SeriesItem) :=
  let res_text := pyOrStr per.resolution_text tsRes
  match resolve_resolution_to_timedelta (some (strOr res_text ("PT60M"))) with
  | .error e => .error e
  | .ok resTd =>
    .ok (pointsLoop toLocal (per.start_utc.getD defaultStart) resTd
      (strOr res_text ("PT60M")) per.points)

/-- The outer loop over all `Period` elements. -/
def periodsLoop (toLocal : Int → Int) (defaultStart : Int) (tsRes : Option String) :
    List PeriodX → Except Unit (List SeriesItem)
  | [] => .ok []
  | per :: rest => do
    let xs ← period_points_to_items toLocal defaultStart tsRes per
    let ys ← periodsLoop toLocal defaultStart tsRes rest
    .ok (xs ++ ys)

/-- `ha_entsoe.ts_points_to_series`. -/
def ts_points_to_series (toLocal : Int → Int) (defaultStart : Int) (ts : TimeSeriesX) :
    Except Unit (List SeriesItem) :=
  if ts.periods.isEmpty then
    match resolve_resolution_to_timedelta (some (strOr ts.resolution_text ("PT60M"))) with
    | .error e => .error e
    | .ok resTd =>
      .ok (pointsLoop toLocal (ts.ti_start.getD defaultStart) resTd
        (strOr ts.resolution_text ("PT60M")) ts.loose_points)
  else periodsLoop toLocal defaultStart ts.resolution_text ts.periods

/-- A normalized slot row as consumed by `api_server` (the dicts returned
by the fetch layer).  `resolution := none` models a dict without the
`resolution` key. -/
structure Slot where
  position : Int
  hour_local : Int
  ct_per_kwh : ℚ
  resolution : Option String
deriving Repr, DecidableEq

/-- `api_server.is_std_dev_relevant`. -/
def is_std_dev_relevant (std_dev price_range : ℚ) (slot_count : Nat) : Bool :=
  if slot_count < 3 then false
  else if std_dev < 1/10 then false
  else if 0 < price_range ∧ std_dev / price_range < 5/100 then false
  else true

/-- `api_server.belongs_to_today`: local wall-clock hour at least 6.
(The parse-failure branch returning True is not representable in the
minute-valued model, where every timestamp parses.) -/
def belongs_to_today (hour_local : Int) : Bool :=
  360 ≤ hour_local % 1440

/-- `api_server.is_past_slot`.  `now` is the current instant on the local
minute axis, `today` the current date (day number), `slot_date` the
slot's date. -/
def is_past_slot (now today : Int) (hour_local : Int) (slot_date : Int)
    (resolution_minutes : Int) : Bool :=
  if slot_date < today then true
  else if today < slot_date then false
  else decide (hour_local + resolution_minutes < now)

/-- `api_server.is_current_or_future_slot`. -/
def is_current_or_future_slot (now today : Int) (hour_local : Int) (slot_date : Int)
    (resolution_minutes : Int) : Bool :=
  !is_past_slot now today hour_local slot_date resolution_minutes

/-- Substring containment, models Python `needle in haystack`. -/
def infixCheck (needle hay : String) : Bool :=
  decide (needle.data <:+: hay.data)

/-- The timestamp-difference fallback of `detect_resolution`. -/
def diffRes (a b : Slot) : Int :=
  let d := b.hour_local - a.hour_local
  if d = 15 then 15 else if d = 60 then 60 else 60

/-- `api_server.detect_resolution`. -/
def detect_resolution (slots : List Slot) : Int :=
  match slots with
  | s0 :: s1 :: _ =>
    (match s0.resolution with
     | some res_text =>
       let r := toUpperStr res_text
       if infixCheck ("PT15M") r then 15
       else if infixCheck ("PT60M") r || infixCheck ("PT1H") r then 60
       else diffRes s0 s1
     | none => diffRes s0 s1)
  | _ => 60

/-- A price block as built by `group_consecutive_slots`.  `avg_price` is
written by the post-loop pass (the Python dict gains the key later); it is
0 at creation. -/
structure PriceBlock where
  start : Int
  end_ : Int
  slots : List Slot
  positions : List Int
  min_price : ℚ
  max_price : ℚ
  avg_price : ℚ
deriving Repr, DecidableEq

/-- The fresh one-slot group the loop opens. -/
def initGroup (s : Slot) : PriceBlock :=
  ⟨s.hour_local, s.hour_local, [s], [s.position], s.ct_per_kwh, s.ct_per_kwh, 0⟩

/-- The time condition checked between two adjacent slots of a group. -/
def slot_time_ok (max_gap_minutes resolution_minutes : Int) (a b : Slot) : Prop :=
  (b.position - a.position) * resolution_minutes ≤ max_gap_minutes + resolution_minutes

/-- The merge test of the grouping loop (`can_merge`): time gap within
bound and would-be price spread within `max_price_gap_ct`. -/
def mergeCond (max_gap_minutes : Int) (max_price_gap_ct : ℚ) (resolution_minutes : Int)
    (minp maxp : ℚ) (prev curr : Slot) : Bool :=
  decide ((curr.position - prev.position) * resolution_minutes
      ≤ max_gap_minutes + resolution_minutes)
    && decide (max maxp curr.ct_per_kwh - min minp curr.ct_per_kwh ≤ max_price_gap_ct)

/-- The main loop of `group_consecutive_slots` over the position-sorted
slots; `cur` is the open group, `prev` the previous sorted slot. -/
def groupLoop (maxGap : Int) (t : ℚ) (res : Int) (cur : PriceBlock) (prev : Slot) :
    List Slot → List PriceBlock
  | [] => [cur]
  | c :: rest =>
    if mergeCond maxGap t res cur.min_price cur.max_price prev c then
      groupLoop maxGap t res
        { cur with
          end_ := c.hour_local
          slots := cur.slots ++ [c]
          positions := cur.positions ++ [c.position]
          min_price := min cur.min_price c.ct_per_kwh
          max_price := max cur.max_price c.ct_per_kwh } c rest
    else cur :: groupLoop maxGap t res (initGroup c) c rest

/-- Ordering of slots by `position` (the sort key of the grouping engine). -/
def slotLE (a b : Slot) : Prop := a.position ≤ b.position

instance : DecidableRel slotLE :=
  fun a b => inferInstanceAs (Decidable (a.position ≤ b.position))

/-- Python `sorted(slots, key=position)` (stable). -/
def sortSlots (slots : List Slot) : List Slot :=
  List.insertionSort slotLE slots

/-- The post-loop pass writing `avg_price` into a group. -/
def setAvg (g : PriceBlock) : PriceBlock :=
  { g with avg_price := (g.slots.map fun s => s.ct_per_kwh).sum / (g.slots.length : ℚ) }

/-- Ordering of groups by average price (the final sort key). -/
def groupLE (a b : PriceBlock) : Prop := a.avg_price ≤ b.avg_price

instance : DecidableRel groupLE :=
  fun a b => inferInstanceAs (Decidable (a.avg_price ≤ b.avg_price))

/-- The groups in formation order (before the sort by average price). -/
def grouped_by_position (slots : List Slot) (max_gap_minutes : Int)
    (max_price_gap_ct : ℚ) (resolution_minutes : Int) : List PriceBlock :=
  match sortSlots slots with
  | [] => []
  | s0 :: rest =>
    groupLoop max_gap_minutes max_price_gap_ct resolution_minutes (initGroup s0) s0 rest

/-- `api_server.group_consecutive_slots`. -/
def group_consecutive_slots (slots : List Slot) (max_gap_minutes : Int)
    (max_price_gap_ct : ℚ) (resolution_minutes : Int) : List PriceBlock :=
  if slots.isEmpty then []
  else List.insertionSort groupLE
    ((grouped_by_position slots max_gap_minutes max_price_gap_ct resolution_minutes).map setAvg)

/-- The `avoid` entry built by `find_most_expensive_hour`.  `range_start`
and `range_end` model the two instants of the formatted `time_range`
string (`format_time_range` adds one resolution step to the last slot's
start). -/
structure ExpensiveHour where
  range_start : Int
  range_end : Int
  duration_minutes : Int
  avg_price : ℚ
  min_price : ℚ
  max_price : ℚ
  slots : List Slot
deriving Repr, DecidableEq

/-- `api_server.format_time_range` on the minute axis. -/
def format_time_range (startT endT : Int) (resolution_minutes : Int) : Int × Int :=
  (startT, endT + resolution_minutes)

/-- Python `max(slots, key=price)`: first maximal element. -/
def maxByPrice (hd : Slot) (l : List Slot) : Slot :=
  l.foldl (fun b s => if b.ct_per_kwh < s.ct_per_kwh then s else b) hd

/-- First element of a nonempty price list, then fold: Python `min(list)`. -/
def listMinQ (l : List ℚ) : ℚ :=
  match l with
  | [] => 0
  | x :: xs => xs.foldl min x

/-- Python `max(list)` on a price list. -/
def listMaxQ (l : List ℚ) : ℚ :=
  match l with
  | [] => 0
  | x :: xs => xs.foldl max x

/-- The single-slot result shape used by the PT60M branch and the PT15M
fallback branch. -/
def singleSlotEH (s : Slot) (res : Int) (dur : Int) : ExpensiveHour :=
  let tr := format_time_range s.hour_local s.hour_local res
  ⟨tr.1, tr.2, dur, pyRound 3 s.ct_per_kwh, pyRound 3 s.ct_per_kwh,
    pyRound 3 s.ct_per_kwh, [s]⟩

/-- Mean price of a window. -/
def windowAvg (w : List Slot) : ℚ :=
  (w.map fun s => s.ct_per_kwh).sum / (w.length : ℚ)

/-- The consecutiveness check of the 4-slot window scan. -/
def consecutiveWindow (w : List Slot) : Bool :=
  decide (List.Chain' (fun a b => b.position - a.position ≤ 1) w)

/-- All 4-slot windows of the sorted slots (Python
`range(len - window_size + 1)` is empty for fewer than 4 slots). -/
def windowsOf (ss : List Slot) : List (List Slot) :=
  if ss.length < 4 then []
  else (List.range (ss.length - 3)).map fun i => (ss.drop i).take 4

/-- The scan keeping the first window of strictly highest mean price. -/
def bestWindow (ws : List (List Slot)) : Option (List Slot) :=
  ws.foldl (fun acc w =>
    match acc with
    | none => some w
    | some b => if windowAvg b < windowAvg w then some w else acc) none

/-- Body of `find_most_expensive_hour` after the future filter. -/
def fmeh_core (future_slots : List Slot) (res : Int) : Option ExpensiveHour :=
  match future_slots with
  | [] => none
  | f0 :: frest =>
    if res = 60 then some (singleSlotEH (maxByPrice f0 frest) res 60)
    else
      let ss := sortSlots future_slots
      match bestWindow ((windowsOf ss).filter consecutiveWindow) with
      | some w =>
        let prices := w.map fun s => s.ct_per_kwh
        let tr := format_time_range ((w.head?.getD f0).hour_local)
          ((w.getLast?.getD f0).hour_local) res
        some ⟨tr.1, tr.2, 60, pyRound 3 (prices.sum / (prices.length : ℚ)),
          pyRound 3 (listMinQ prices), pyRound 3 (listMaxQ prices), w⟩
      | none => some (singleSlotEH (maxByPrice f0 frest) res 15)

/-- `api_server.find_most_expensive_hour`. -/
def find_most_expensive_hour (now today : Int) (all_slots : List Slot)
    (slot_date : Int) (resolution_minutes : Int) : Option ExpensiveHour :=
  if all_slots.isEmpty then none
  else
    let future_slots :=
      if slot_date = today then
        all_slots.filter fun s =>
          is_current_or_future_slot now today s.hour_local slot_date resolution_minutes
      else all_slots
    fmeh_core future_slots resolution_minutes

/-- Result of the grouping-with-fallback phase of `process_day_data`
(steps 1-3 of the Python function: night filter, initial grouping, staged
threshold relaxation).  `currentGap` is the threshold of the last
grouping attempt (reported as `adjusted_price_gap`). -/
structure GroupingOutcome where
  groups : List PriceBlock
  currentGap : ℚ
  fallbackApplied : Bool
  resolution : Int
deriving Repr

/-- The grouping pipeline of `api_server.process_day_data` (lines up to
the block-formatting stage): early return on empty input, resolution
detection, night-slot filter for today, initial grouping, then the staged
fallback (`gap * 0.5`, then `max(0.3, gap * 0.25)` only while the halved
gap still exceeds 0.3). -/
def process_day_grouping (today slot_date : Int) (all_slots : List Slot)
    (max_blocks : Nat) (max_time_gap_minutes : Int) (max_price_gap_ct : ℚ) :
    GroupingOutcome :=
  if all_slots.isEmpty then ⟨[], max_price_gap_ct, false, 60⟩
  else
    let res := detect_resolution all_slots
    let filtered :=
      if slot_date = today then all_slots.filter fun s => belongs_to_today s.hour_local
      else all_slots
    let g1 := group_consecutive_slots filtered max_time_gap_minutes max_price_gap_ct res
    if g1.length < max_blocks then
      let gap2 := max_price_gap_ct * (1/2)
      let g2 := group_consecutive_slots filtered max_time_gap_minutes gap2 res
      if g2.length < max_blocks ∧ (3 : ℚ)/10 < gap2 then
        let gap3 := max ((3 : ℚ)/10) (max_price_gap_ct * (1/4))
        ⟨group_consecutive_slots filtered max_time_gap_minutes gap3 res, gap3, true, res⟩
      else ⟨g2, gap2, true, res⟩
    else ⟨g1, max_price_gap_ct, false, res⟩

/-- The member prices of a price block. -/
def blockPrices (g : PriceBlock) : List ℚ :=
  g.slots.map fun s => s.ct_per_kwh

/-- PriceBlock-count skeleton of `groupLoop`: same recursion, but carrying only
the running minimum/maximum of the open group.  Used to compare group
counts across thresholds. -/
def cnt (maxGap : Int) (t : ℚ) (res : Int) (prev : Slot) (m M : ℚ) : List Slot → Nat
  | [] => 1
  | c :: rest =>
    if mergeCond maxGap t res m M prev c then
      cnt maxGap t res c (min m c.ct_per_kwh) (max M c.ct_per_kwh) rest
    else 1 + cnt maxGap t res c c.ct_per_kwh c.ct_per_kwh rest

instance : IsTotal Slot slotLE :=
  ⟨fun a b => le_total a.position b.position⟩

instance : IsTrans Slot slotLE :=
  ⟨fun _ _ _ hab hbc => le_trans hab hbc⟩

instance : IsTotal PriceBlock groupLE :=
  ⟨fun a b => le_total a.avg_price b.avg_price⟩

instance : IsTrans PriceBlock groupLE :=
  ⟨fun _ _ _ hab hbc => le_trans hab hbc⟩

/-- C10: for every slot list with fewer than two elements,
`detect_resolution` returns 60, even when the sole slot's resolution field
is "PT15M"; the resolution field and the timestamp fallback are consulted
only from two slots on (the singleton result is independent of every field
of the slot). -/
theorem claim_C10_detect_resolution_small :
    detect_resolution [] = 60 ∧ (∀ s : Slot, detect_resolution [s] = 60)
      ∧ detect_resolution [⟨1, 0, 5, some ("PT15M")⟩] = 60 :=
  ⟨rfl, fun _ => rfl, rfl⟩

/-- C8: the standard-deviation gate of the day processor accepts exactly
when the block has at least 3 slots, the standard deviation is at least
0.1 ct/kWh, and the standard deviation is at least 5 percent of the
block's price range (`process_day_data` attaches `price_std_dev` iff this
gate holds on the block's std-dev, range and slot count). -/
theorem claim_C8_std_dev_gate (std_dev price_range : ℚ) (slot_count : Nat) :
    is_std_dev_relevant std_dev price_range slot_count = true ↔
      (3 ≤ slot_count ∧ 1/10 ≤ std_dev ∧ price_range * (5/100) ≤ std_dev) := by
  unfold is_std_dev_relevant
  split_ifs with h1 h2 h3
  · exact iff_of_false (by simp) fun h => absurd h.1 (by omega)
  · exact iff_of_false (by simp) fun h => absurd h.2.1 (not_le.mpr h2)
  · refine iff_of_false (by simp) fun h => ?_
    have hlt := (div_lt_iff₀ h3.1).mp h3.2
    nlinarith [h.2.2]
  · refine iff_of_true rfl ⟨by omega, not_lt.mp h2, ?_⟩
    rcases le_or_lt price_range 0 with hr | hr
    · have hnp : price_range * (5/100) ≤ 0 :=
        mul_nonpos_of_nonpos_of_nonneg hr (by norm_num)
      have h10 : (1 : ℚ)/10 ≤ std_dev := not_lt.mp h2
      linarith
    · have h4 : ¬ std_dev / price_range < 5/100 := fun hc => h3 ⟨hr, hc⟩
      have h5 := (le_div_iff₀ hr).mp (not_lt.mp h4)
      linarith [mul_comm price_range ((5 : ℚ)/100)]

/-- C2 amended: the Resolution Resolver maps `PT<N>M` (with `<N>` a valid
integer literal) to N minutes, `PT<N>H` to N hours, `P1D` to one day, and
every input that does not match the `PT...M` / `PT...H` / `P1D` shapes
(absent, empty or unrecognized) to 60 minutes; however, a string that
starts with `PT` and ends with `M` or `H` whose middle is not a valid
integer literal raises `ValueError` instead of defaulting. -/
theorem claim_C2_amended :
    (resolve_resolution_to_timedelta none = .ok 60)
    ∧ (resolve_resolution_to_timedelta (some ("")) = .ok 60)
    ∧ (∀ (s : String) (n : Int),
        startsWithStr (toUpperStr s) ("PT") = true →
        endsWithStr (toUpperStr s) ("M") = true →
        pyIntParse (sliceMid (toUpperStr s)) = some n →
        s.isEmpty = false →
        resolve_resolution_to_timedelta (some s) = .ok n)
    ∧ (∀ (s : String) (n : Int),
        startsWithStr (toUpperStr s) ("PT") = true →
        endsWithStr (toUpperStr s) ("M") = false →
        endsWithStr (toUpperStr s) ("H") = true →
        pyIntParse (sliceMid (toUpperStr s)) = some n →
        s.isEmpty = false →
        resolve_resolution_to_timedelta (some s) = .ok (60 * n))
    ∧ (∀ s : String, s.isEmpty = false →
        (startsWithStr (toUpperStr s) ("PT") && endsWithStr (toUpperStr s) ("M")) = false →
        (startsWithStr (toUpperStr s) ("PT") && endsWithStr (toUpperStr s) ("H")) = false →
        toUpperStr s = ("P1D") →
        resolve_resolution_to_timedelta (some s) = .ok 1440)
    ∧ (∀ s : String, s.isEmpty = false →
        (startsWithStr (toUpperStr s) ("PT") && endsWithStr (toUpperStr s) ("M")) = false →
        (startsWithStr (toUpperStr s) ("PT") && endsWithStr (toUpperStr s) ("H")) = false →
        toUpperStr s ≠ ("P1D") →
        resolve_resolution_to_timedelta (some s) = .ok 60)
    ∧ (∀ s : String,
        startsWithStr (toUpperStr s) ("PT") = true →
        endsWithStr (toUpperStr s) ("M") = true →
        pyIntParse (sliceMid (toUpperStr s)) = none →
        s.isEmpty = false →
        resolve_resolution_to_timedelta (some s) = .error ()) := by
  refine ⟨rfl, rfl, ?_, ?_, ?_, ?_, ?_⟩
  · intro s n hs he hp hempty
    simp [resolve_resolution_to_timedelta, pyTruthyStr, hempty, hs, he, hp]
  · intro s n hs hm hh hp hempty
    simp [resolve_resolution_to_timedelta, pyTruthyStr, hempty, hs, hm, hh, hp]
  · intro s hempty hM hH hP
    simp [resolve_resolution_to_timedelta, pyTruthyStr, hempty, hM, hH, hP]
    rfl
  · intro s hempty hM hH hP
    simp [resolve_resolution_to_timedelta, pyTruthyStr, hempty, hM, hH, hP]
  · intro s hs he hp hempty
    simp [resolve_resolution_to_timedelta, pyTruthyStr, hempty, hs, he, hp]

/-- C2 counterexample: on input "PTXM" (starts with PT, ends with M, middle
not an integer literal) `resolve_resolution_to_timedelta` raises
`ValueError` from `int(r[2:-1])` instead of returning 60 minutes, so the
claim that every unrecognized input yields 60 minutes without raising is
false. -/
theorem claim_C2_counterexample :
    resolve_resolution_to_timedelta (some ("PTXM")) = .error () := rfl

/-- C2 witness: the amended theorem applied at concrete inputs. -/
theorem claim_C2_witness :
    resolve_resolution_to_timedelta (some ("PT15M")) = .ok 15 ∧
    resolve_resolution_to_timedelta (some ("PT2H")) = .ok 120 ∧
    resolve_resolution_to_timedelta (some ("XYZ")) = .ok 60 :=
  ⟨claim_C2_amended.2.2.1 ("PT15M") 15 rfl rfl rfl rfl,
   claim_C2_amended.2.2.2.1 ("PT2H") 2 rfl rfl rfl rfl rfl,
   claim_C2_amended.2.2.2.2.2.1 ("XYZ") rfl rfl rfl (by decide)⟩

theorem rowsLoopPrice_length (l : List SeriesItem) :
    ∀ idx, (rowsLoopPrice idx l).length = l.countP fun it => it.price.isSome := by
  induction l with
  | nil => intro idx; simp [rowsLoopPrice]
  | cons it rest ih =>
    intro idx
    cases hp : it.price with
    | none => simp [rowsLoopPrice, hp, ih, List.countP_cons]
    | some p => simp [rowsLoopPrice, hp, ih, List.countP_cons]

theorem rowsLoopPrice_pos_bounds (l : List SeriesItem) :
    ∀ idx, ∀ r ∈ rowsLoopPrice idx l, idx ≤ r.position ∧ r.position < idx + l.length := by
  induction l with
  | nil => intro idx r hr; simp [rowsLoopPrice] at hr
  | cons it rest ih =>
    intro idx r hr
    cases hp : it.price with
    | none =>
      rw [rowsLoopPrice, hp] at hr
      have h := ih (idx + 1) r hr
      simp only [List.length_cons]
      omega
    | some p =>
      rw [rowsLoopPrice, hp] at hr
      rcases List.mem_cons.mp hr with h | h
      · subst h; simp only [List.length_cons]; omega
      · have h2 := ih (idx + 1) r h
        simp only [List.length_cons]
        omega

theorem rowsLoopPrice_pos_pairwise (l : List SeriesItem) :
    ∀ idx, List.Pairwise (fun a b : PriceRow => a.position < b.position)
      (rowsLoopPrice idx l) := by
  induction l with
  | nil => intro idx; simp [rowsLoopPrice]
  | cons it rest ih =>
    intro idx
    cases hp : it.price with
    | none => rw [rowsLoopPrice, hp]; exact ih (idx + 1)
    | some p =>
      rw [rowsLoopPrice, hp]
      refine List.Pairwise.cons (fun r hr => ?_) (ih (idx + 1))
      have := rowsLoopPrice_pos_bounds rest (idx + 1) r hr
      show idx < r.position
      omega

theorem rowsLoopQty_length (qkey : String) (l : List SeriesItem) :
    ∀ idx, (rowsLoopQty qkey idx l).length = l.countP fun it => it.quantity.isSome := by
  induction l with
  | nil => intro idx; simp [rowsLoopQty]
  | cons it rest ih =>
    intro idx
    cases hp : it.quantity with
    | none => simp [rowsLoopQty, hp, ih, List.countP_cons]
    | some p => simp [rowsLoopQty, hp, ih, List.countP_cons]

theorem rowsLoopQty_pos_bounds (qkey : String) (l : List SeriesItem) :
    ∀ idx, ∀ r ∈ rowsLoopQty qkey idx l, idx ≤ r.position ∧ r.position < idx + l.length := by
  induction l with
  | nil => intro idx r hr; simp [rowsLoopQty] at hr
  | cons it rest ih =>
    intro idx r hr
    cases hp : it.quantity with
    | none =>
      rw [rowsLoopQty, hp] at hr
      have h := ih (idx + 1) r hr
      simp only [List.length_cons]
      omega
    | some p =>
      rw [rowsLoopQty, hp] at hr
      rcases List.mem_cons.mp hr with h | h
      · subst h; simp only [List.length_cons]; omega
      · have h2 := ih (idx + 1) r h
        simp only [List.length_cons]
        omega

theorem rowsLoopQty_pos_pairwise (qkey : String) (l : List SeriesItem) :
    ∀ idx, List.Pairwise (fun a b : QuantityRow => a.position < b.position)
      (rowsLoopQty qkey idx l) := by
  induction l with
  | nil => intro idx; simp [rowsLoopQty]
  | cons it rest ih =>
    intro idx
    cases hp : it.quantity with
    | none => rw [rowsLoopQty, hp]; exact ih (idx + 1)
    | some p =>
      rw [rowsLoopQty, hp]
      refine List.Pairwise.cons (fun r hr => ?_) (ih (idx + 1))
      have := rowsLoopQty_pos_bounds qkey rest (idx + 1) r hr
      show idx < r.position
      omega

theorem foldl_upsert_distinct :
    ∀ (items : List SeriesItem) (acc : List (Int × List SeriesItem)),
      items.Pairwise (fun a b => a.timestamp_local ≠ b.timestamp_local) →
      (∀ b ∈ acc, ∀ it ∈ items, b.1 ≠ it.timestamp_local) →
      List.foldl upsertBucket acc items
        = acc ++ items.map fun it => (it.timestamp_local, [it]) := by
  intro items
  induction items with
  | nil => intro acc _ _; simp
  | cons it rest ih =>
    intro acc hpw hacc
    have hany : (acc.any fun b => b.1 = it.timestamp_local) = false := by
      rw [List.any_eq_false]
      intro b hb
      simpa using hacc b hb it (List.mem_cons_self _ _)
    have hstep : upsertBucket acc it = acc ++ [(it.timestamp_local, [it])] := by
      rw [upsertBucket, hany]
      simp
    rw [List.foldl_cons, hstep,
      ih (acc ++ [(it.timestamp_local, [it])]) hpw.of_cons ?_]
    · simp
    · intro b hb x hx
      rcases List.mem_append.mp hb with h | h
      · exact hacc b h x (List.mem_cons_of_mem _ hx)
      · have hb1 : b = (it.timestamp_local, [it]) := by simpa using h
        subst hb1
        exact (List.pairwise_cons.mp hpw).1 x hx

theorem coalesce_last_distinct (items : List SeriesItem)
    (h : items.Pairwise fun a b => a.timestamp_local ≠ b.timestamp_local) :
    coalesce_by_timestamp items ("last") = List.insertionSort itemLE items := by
  have hpick : ∀ l : List SeriesItem,
      ((l.map fun it => (it.timestamp_local, [it])).filterMap
        fun b => pickFromBucket ("last") b.2) = l := by
    intro l
    induction l with
    | nil => rfl
    | cons x xs ih =>
      simp [pickFromBucket] at ih ⊢
      exact ih
  unfold coalesce_by_timestamp bucketsOf
  rw [foldl_upsert_distinct items [] h (by simp), List.nil_append, hpick]

theorem coalesce_last_distinct_perm (items : List SeriesItem)
    (h : items.Pairwise fun a b => a.timestamp_local ≠ b.timestamp_local) :
    (coalesce_by_timestamp items ("last")).Perm items := by
  rw [coalesce_last_distinct items h]
  exact List.perm_insertionSort itemLE items

/-- C1 counterexample: a deduplicated two-item input whose first item has a
null price and whose second has one.  It has `k = 1` non-null-priced items,
but the single returned row carries position 2, not the positions `1..k`
claimed: the enumerate index is consumed by the skipped null item. -/
theorem claim_C1_counterexample :
    (([⟨0, none, none, ("PT60M")⟩, ⟨60, some 50, none, ("PT60M")⟩] :
        List SeriesItem).countP fun it => it.price.isSome) = 1
    ∧ (([⟨0, none, none, ("PT60M")⟩, ⟨60, some 50, none, ("PT60M")⟩] :
        List SeriesItem).Pairwise fun a b => a.timestamp_local ≠ b.timestamp_local)
    ∧ ((rows_from_items_price
        [⟨0, none, none, ("PT60M")⟩, ⟨60, some 50, none, ("PT60M")⟩]).map
          fun r => r.position) = [2]
    ∧ ([2] : List Nat) ≠ [1] := by
  exact ⟨by decide, by decide, by with_unfolding_all rfl, by decide⟩

/-- C1 amended: for a deduplicated input (pairwise distinct local
timestamps) with `k` non-null-valued items, both row normalizers return
exactly `k` rows whose `position` fields are strictly increasing 1-based
indices into the deduplicated timestamp-sorted item list (bounded by the
input length); the positions are NOT renumbered densely to `1..k` — a
skipped null-valued item leaves a gap. -/
theorem claim_C1_amended (items : List SeriesItem)
    (hdist : items.Pairwise fun a b => a.timestamp_local ≠ b.timestamp_local)
    (qkey : String) :
    ((rows_from_items_price items).length = items.countP fun it => it.price.isSome)
    ∧ List.Pairwise (fun a b : PriceRow => a.position < b.position)
        (rows_from_items_price items)
    ∧ (∀ r ∈ rows_from_items_price items, 1 ≤ r.position ∧ r.position ≤ items.length)
    ∧ ((rows_from_items_quantity items qkey).length
        = items.countP fun it => it.quantity.isSome)
    ∧ List.Pairwise (fun a b : QuantityRow => a.position < b.position)
        (rows_from_items_quantity items qkey)
    ∧ ∀ r ∈ rows_from_items_quantity items qkey,
        1 ≤ r.position ∧ r.position ≤ items.length := by
  have hperm := coalesce_last_distinct_perm items hdist
  have hlen : (coalesce_by_timestamp items ("last")).length = items.length :=
    hperm.length_eq
  unfold rows_from_items_price rows_from_items_quantity
  refine ⟨?_, ?_, ?_, ?_, ?_, ?_⟩
  · rw [rowsLoopPrice_length]
    exact hperm.countP_eq _
  · exact rowsLoopPrice_pos_pairwise _ 1
  · intro r hr
    have hb := rowsLoopPrice_pos_bounds _ 1 r hr
    omega
  · rw [rowsLoopQty_length]
    exact hperm.countP_eq _
  · exact rowsLoopQty_pos_pairwise qkey _ 1
  · intro r hr
    have hb := rowsLoopQty_pos_bounds qkey _ 1 r hr
    omega

/-- C1 witness: the amended theorem applied to a concrete deduplicated
input with one null-priced item. -/
theorem claim_C1_witness :
    (([⟨0, none, none, ("PT60M")⟩, ⟨60, some 50, none, ("PT60M")⟩] :
        List SeriesItem).Pairwise fun a b => a.timestamp_local ≠ b.timestamp_local)
    ∧ (rows_from_items_price
        [⟨0, none, none, ("PT60M")⟩, ⟨60, some 50, none, ("PT60M")⟩]).length
      = (([⟨0, none, none, ("PT60M")⟩, ⟨60, some 50, none, ("PT60M")⟩] :
          List SeriesItem).countP fun it => it.price.isSome) :=
  ⟨by decide,
   (claim_C1_amended
     [⟨0, none, none, ("PT60M")⟩, ⟨60, some 50, none, ("PT60M")⟩]
     (by decide) ("q")).1⟩

theorem pointsLoop_eq_filterMap (toLocal : Int → Int) (S R : Int) (resStore : String) :
    ∀ pts : List PointX,
      pointsLoop toLocal S R resStore pts
        = pts.filterMap fun pt => (parse_position pt.position_text).map
            (mkSeriesItem toLocal S R resStore pt) := by
  intro pts
  induction pts with
  | nil => rfl
  | cons pt rest ih =>
    cases hp : parse_position pt.position_text with
    | none => simp [pointsLoop, hp, ih]
    | some p => simp [pointsLoop, hp, ih]

theorem period_points_to_items_eq (toLocal : Int → Int) (dS : Int)
    (tsRes : Option String) (per : PeriodX) (R : Int)
    (hR : resolve_resolution_to_timedelta
      (some (strOr (pyOrStr per.resolution_text tsRes) ("PT60M"))) = .ok R) :
    period_points_to_items toLocal dS tsRes per
      = .ok (per.points.filterMap fun pt =>
          (parse_position pt.position_text).map fun p =>
            { timestamp_local := toLocal (per.start_utc.getD dS + (p - 1) * R)
              price := safeFloat pt.price_text
              quantity := safeFloat pt.quantity_text
              resolution := strOr (pyOrStr per.resolution_text tsRes) ("PT60M") }) := by
  simp only [period_points_to_items]
  rw [hR]
  show Except.ok (pointsLoop toLocal (per.start_utc.getD dS) R
    (strOr (pyOrStr per.resolution_text tsRes) ("PT60M")) per.points) = _
  rw [pointsLoop_eq_filterMap]
  rfl

/-- C7: for a Period whose effective resolution text resolves to the step
`R` and whose parsed start instant is `S` (or the UTC-midnight default when
the element is missing), `ts_points_to_series` maps every point with a
parsable integer position `p` to a Series Item whose `timestamp_local` is
the local projection of `S + (p - 1) * R`, and silently drops points whose
position does not parse; with PT60M, position 25 lands 24 hours after `S`,
and with PT15M, position 5 lands 1 hour after `S`. -/
theorem claim_C7_time_axis :
    (∀ (toLocal : Int → Int) (dS : Int) (tsRes : Option String) (per : PeriodX) (R : Int),
      resolve_resolution_to_timedelta
          (some (strOr (pyOrStr per.resolution_text tsRes) ("PT60M"))) = .ok R →
      period_points_to_items toLocal dS tsRes per
        = .ok (per.points.filterMap fun pt =>
            (parse_position pt.position_text).map fun p =>
              { timestamp_local := toLocal (per.start_utc.getD dS + (p - 1) * R)
                price := safeFloat pt.price_text
                quantity := safeFloat pt.quantity_text
                resolution := strOr (pyOrStr per.resolution_text tsRes) ("PT60M") }))
    ∧ (∀ (toLocal : Int → Int) (dS : Int) (ti : Option Int) (rt : Option String)
        (lp : List PointX) (per : PeriodX),
        ts_points_to_series toLocal dS ⟨[per], ti, rt, lp⟩
          = period_points_to_items toLocal dS rt per)
    ∧ (∀ (toLocal : Int → Int) (S : Int) (pt : PointX),
        parse_position pt.position_text = some 25 →
        period_points_to_items toLocal 0 none ⟨some S, some ("PT60M"), [pt]⟩
          = .ok [{ timestamp_local := toLocal (S + 24 * 60)
                   price := safeFloat pt.price_text
                   quantity := safeFloat pt.quantity_text
                   resolution := ("PT60M") }])
    ∧ (∀ (toLocal : Int → Int) (S : Int) (pt : PointX),
        parse_position pt.position_text = some 5 →
        period_points_to_items toLocal 0 none ⟨some S, some ("PT15M"), [pt]⟩
          = .ok [{ timestamp_local := toLocal (S + 60)
                   price := safeFloat pt.price_text
                   quantity := safeFloat pt.quantity_text
                   resolution := ("PT15M") }])
    ∧ (∀ (toLocal : Int → Int) (S : Int) (pt : PointX),
        parse_position pt.position_text = none →
        period_points_to_items toLocal 0 none ⟨some S, some ("PT60M"), [pt]⟩
          = .ok []) := by
  refine ⟨period_points_to_items_eq, ?_, ?_, ?_, ?_⟩
  · intro toLocal dS ti rt lp per
    show periodsLoop toLocal dS rt [per] = _
    rw [periodsLoop]
    cases h : period_points_to_items toLocal dS rt per with
    | error e => rfl
    | ok xs => show Except.ok (xs ++ []) = Except.ok xs; simp
  · intro toLocal S pt hp
    rw [period_points_to_items_eq toLocal 0 none ⟨some S, some ("PT60M"), [pt]⟩ 60 rfl]
    simp [hp]
    all_goals rfl
  · intro toLocal S pt hp
    rw [period_points_to_items_eq toLocal 0 none ⟨some S, some ("PT15M"), [pt]⟩ 15 rfl]
    simp [hp]
    all_goals rfl
  · intro toLocal S pt hp
    rw [period_points_to_items_eq toLocal 0 none ⟨some S, some ("PT60M"), [pt]⟩ 60 rfl]
    simp [hp]

/-- C7 witness: the mapping theorem applied to a concrete point with
position text "25" in a PT60M period starting at minute 100. -/
theorem claim_C7_witness :
    period_points_to_items id 0 none ⟨some 100, some ("PT60M"), [⟨some ("25"), none, none⟩]⟩
      = .ok [{ timestamp_local := 1540, price := none, quantity := none,
               resolution := ("PT60M") }] := by
  have h := claim_C7_time_axis.2.2.1 id 100 ⟨some ("25"), none, none⟩
    (by with_unfolding_all rfl)
  exact h.trans (by with_unfolding_all rfl)

theorem min_mem_append (m p : ℚ) (l : List ℚ) (hm : m ∈ l) : min m p ∈ l ++ [p] := by
  rcases le_total m p with h | h
  · rw [min_eq_left h]; exact List.mem_append_left _ hm
  · rw [min_eq_right h]; exact List.mem_append_right _ (by simp)

theorem max_mem_append (m p : ℚ) (l : List ℚ) (hm : m ∈ l) : max m p ∈ l ++ [p] := by
  rcases le_total m p with h | h
  · rw [max_eq_right h]; exact List.mem_append_right _ (by simp)
  · rw [max_eq_left h]; exact List.mem_append_left _ hm

theorem groupLoop_invariant (maxGap : Int) (t : ℚ) (res : Int) :
    ∀ (l : List Slot) (cur : PriceBlock) (prev : Slot),
      cur.slots.getLast? = some prev →
      cur.min_price ∈ blockPrices cur →
      (∀ p ∈ blockPrices cur, cur.min_price ≤ p) →
      cur.max_price ∈ blockPrices cur →
      (∀ p ∈ blockPrices cur, p ≤ cur.max_price) →
      List.Chain' (slot_time_ok maxGap res) cur.slots →
      (((groupLoop maxGap t res cur prev l).map fun g => g.slots).flatten
          = cur.slots ++ l)
      ∧ ∀ g ∈ groupLoop maxGap t res cur prev l,
          g.slots ≠ []
          ∧ g.min_price ∈ blockPrices g ∧ (∀ p ∈ blockPrices g, g.min_price ≤ p)
          ∧ g.max_price ∈ blockPrices g ∧ (∀ p ∈ blockPrices g, p ≤ g.max_price)
          ∧ List.Chain' (slot_time_ok maxGap res) g.slots := by
  intro l
  induction l with
  | nil =>
    intro cur prev hlast hmin hminle hmax hmaxle hch
    refine ⟨by simp [groupLoop], ?_⟩
    intro g hg
    rw [groupLoop] at hg
    rw [List.mem_singleton] at hg
    subst hg
    refine ⟨?_, hmin, hminle, hmax, hmaxle, hch⟩
    intro hnil
    rw [hnil] at hlast
    exact Option.noConfusion hlast
  | cons c rest ih =>
    intro cur prev hlast hmin hminle hmax hmaxle hch
    rw [groupLoop]
    by_cases hm : mergeCond maxGap t res cur.min_price cur.max_price prev c = true
    · rw [if_pos hm]
      have hm2 := hm
      rw [mergeCond, Bool.and_eq_true] at hm2
      have hts0 := of_decide_eq_true hm2.1
      have hts : slot_time_ok maxGap res prev c := hts0
      have hbp : blockPrices
          { cur with
            end_ := c.hour_local
            slots := cur.slots ++ [c]
            positions := cur.positions ++ [c.position]
            min_price := min cur.min_price c.ct_per_kwh
            max_price := max cur.max_price c.ct_per_kwh }
          = blockPrices cur ++ [c.ct_per_kwh] := by
        simp [blockPrices]
      have hch' : List.Chain' (slot_time_ok maxGap res) (cur.slots ++ [c]) := by
        refine List.Chain'.append hch (List.chain'_singleton c) ?_
        intro x hx y hy
        rw [hlast, Option.mem_def, Option.some_inj] at hx
        rw [List.head?_cons, Option.mem_def, Option.some_inj] at hy
        subst hx; subst hy
        exact hts
      have h := ih
        { cur with
          end_ := c.hour_local
          slots := cur.slots ++ [c]
          positions := cur.positions ++ [c.position]
          min_price := min cur.min_price c.ct_per_kwh
          max_price := max cur.max_price c.ct_per_kwh } c
        (by simp [List.getLast?_concat])
        (by rw [hbp]; exact min_mem_append _ _ _ hmin)
        (by rw [hbp]
            intro p hp
            rcases List.mem_append.mp hp with h | h
            · exact le_trans (min_le_left _ _) (hminle p h)
            · rw [List.mem_singleton] at h
              subst h
              exact min_le_right _ _)
        (by rw [hbp]; exact max_mem_append _ _ _ hmax)
        (by rw [hbp]
            intro p hp
            rcases List.mem_append.mp hp with h | h
            · exact le_trans (hmaxle p h) (le_max_left _ _)
            · rw [List.mem_singleton] at h
              subst h
              exact le_max_right _ _)
        hch'
      refine ⟨?_, h.2⟩
      rw [h.1]
      simp
    · rw [if_neg hm]
      have hinit := ih (initGroup c) c rfl (by simp [blockPrices, initGroup])
        (by simp [blockPrices, initGroup]) (by simp [blockPrices, initGroup])
        (by simp [blockPrices, initGroup]) (List.chain'_singleton c)
      refine ⟨?_, ?_⟩
      · rw [List.map_cons, List.flatten_cons, hinit.1]
        simp [initGroup]
      · intro g hg
        rcases List.mem_cons.mp hg with h | h
        · subst h
          refine ⟨?_, hmin, hminle, hmax, hmaxle, hch⟩
          intro hnil
          rw [hnil] at hlast
          exact Option.noConfusion hlast
        · exact hinit.2 g h

theorem groupLoop_spread (maxGap : Int) (t : ℚ) (res : Int) (ht : 0 ≤ t) :
    ∀ (l : List Slot) (cur : PriceBlock) (prev : Slot),
      cur.max_price - cur.min_price ≤ t →
      ∀ g ∈ groupLoop maxGap t res cur prev l, g.max_price - g.min_price ≤ t := by
  intro l
  induction l with
  | nil =>
    intro cur prev hs g hg
    rw [groupLoop, List.mem_singleton] at hg
    subst hg
    exact hs
  | cons c rest ih =>
    intro cur prev hs g hg
    rw [groupLoop] at hg
    by_cases hm : mergeCond maxGap t res cur.min_price cur.max_price prev c = true
    · rw [if_pos hm] at hg
      have hm2 := hm
      rw [mergeCond, Bool.and_eq_true] at hm2
      have hspread : max cur.max_price c.ct_per_kwh - min cur.min_price c.ct_per_kwh ≤ t :=
        of_decide_eq_true hm2.2
      exact ih _ c hspread g hg
    · rw [if_neg hm] at hg
      rcases List.mem_cons.mp hg with h | h
      · subst h; exact hs
      · exact ih _ c (by simpa [initGroup] using ht) g h

theorem mem_group_consecutive_slots {g : PriceBlock} {slots : List Slot} {maxGap : Int}
    {t : ℚ} {res : Int}
    (hg : g ∈ group_consecutive_slots slots maxGap t res) :
    ∃ g' ∈ grouped_by_position slots maxGap t res, g = setAvg g' := by
  unfold group_consecutive_slots at hg
  split_ifs at hg with he
  · simp at hg
  · rw [List.mem_insertionSort] at hg
    obtain ⟨g', hg', rfl⟩ := List.mem_map.mp hg
    exact ⟨g', hg', rfl⟩

theorem grouped_by_position_props (slots : List Slot) (maxGap : Int) (t : ℚ) (res : Int) :
    (((grouped_by_position slots maxGap t res).map fun g => g.slots).flatten
        = sortSlots slots)
    ∧ ∀ g ∈ grouped_by_position slots maxGap t res,
        g.slots ≠ []
        ∧ g.min_price ∈ blockPrices g ∧ (∀ p ∈ blockPrices g, g.min_price ≤ p)
        ∧ g.max_price ∈ blockPrices g ∧ (∀ p ∈ blockPrices g, p ≤ g.max_price)
        ∧ List.Chain' (slot_time_ok maxGap res) g.slots := by
  unfold grouped_by_position
  cases hs : sortSlots slots with
  | nil => simp
  | cons s0 rest =>
    have h := groupLoop_invariant maxGap t res rest (initGroup s0) s0 rfl
      (by simp [blockPrices, initGroup]) (by simp [blockPrices, initGroup])
      (by simp [blockPrices, initGroup]) (by simp [blockPrices, initGroup])
      (List.chain'_singleton s0)
    refine ⟨?_, h.2⟩
    rw [h.1]
    simp [initGroup]

theorem grouped_by_position_spread (slots : List Slot) (maxGap : Int) (t : ℚ) (res : Int)
    (ht : 0 ≤ t) :
    ∀ g ∈ grouped_by_position slots maxGap t res, g.max_price - g.min_price ≤ t := by
  unfold grouped_by_position
  cases sortSlots slots with
  | nil => simp
  | cons s0 rest =>
    exact groupLoop_spread maxGap t res ht rest (initGroup s0) s0
      (by simpa [initGroup] using ht)

/-- C3: for nonnegative gap parameters (the API enforces
`max_price_gap >= 0.3` and `max_time_gap >= 15`), every group returned by
`group_consecutive_slots` satisfies the adjacency time bound
`(position_b - position_a) * resolution <= max_gap + resolution` between
consecutive members and has final price spread `max_price - min_price`
at most the threshold; in particular two slots whose positions differ by
one always satisfy the time condition. -/
theorem claim_C3_group_invariants (slots : List Slot) (maxGap : Int) (t : ℚ) (res : Int)
    (ht : 0 ≤ t) (hgap : 0 ≤ maxGap) :
    (∀ g ∈ group_consecutive_slots slots maxGap t res,
      List.Chain' (slot_time_ok maxGap res) g.slots ∧ g.max_price - g.min_price ≤ t)
    ∧ ∀ a b : Slot, b.position - a.position = 1 → slot_time_ok maxGap res a b := by
  constructor
  · intro g hg
    obtain ⟨g', hg', rfl⟩ := mem_group_consecutive_slots hg
    have hprops := (grouped_by_position_props slots maxGap t res).2 g' hg'
    have hspread := grouped_by_position_spread slots maxGap t res ht g' hg'
    exact ⟨hprops.2.2.2.2.2, hspread⟩
  · intro a b hd
    unfold slot_time_ok
    rw [hd, one_mul]
    linarith

/-- C3 witness: the invariant theorem applied at concrete parameters and a
concrete two-slot input whose single group is computed explicitly. -/
theorem claim_C3_witness :
    List.Chain' (slot_time_ok 60 60) [⟨1, 0, 5, none⟩, ⟨2, 60, 6, none⟩]
      ∧ (6 : ℚ) - 5 ≤ 2 := by
  have h := (claim_C3_group_invariants [⟨1, 0, 5, none⟩, ⟨2, 60, 6, none⟩] 60 2 60
    (by norm_num) (by norm_num)).1
    ⟨0, 60, [⟨1, 0, 5, none⟩, ⟨2, 60, 6, none⟩], [1, 2], 5, 6, 11/2⟩
    (by with_unfolding_all decide)
  exact h

/-- C9: for every non-empty slot list the returned groups partition the
input: the concatenation of the groups' slot lists is a permutation of the
input, the group sizes sum to the input length, concatenating the groups
in formation order yields exactly the input sorted ascending by position,
and every group's `min_price`/`max_price` are the true minimum/maximum of
its members' prices. -/
theorem claim_C9_partition (slots : List Slot) (maxGap : Int) (t : ℚ) (res : Int)
    (hne : slots ≠ []) :
    (((group_consecutive_slots slots maxGap t res).map fun g => g.slots).flatten.Perm slots)
    ∧ ((group_consecutive_slots slots maxGap t res).map fun g => g.slots.length).sum
        = slots.length
    ∧ (((grouped_by_position slots maxGap t res).map fun g => g.slots).flatten
        = sortSlots slots)
    ∧ List.Pairwise (fun a b : Slot => a.position ≤ b.position) (sortSlots slots)
    ∧ ∀ g ∈ group_consecutive_slots slots maxGap t res,
        g.slots ≠ []
        ∧ g.min_price ∈ blockPrices g ∧ (∀ p ∈ blockPrices g, g.min_price ≤ p)
        ∧ g.max_price ∈ blockPrices g ∧ ∀ p ∈ blockPrices g, p ≤ g.max_price := by
  have hform := grouped_by_position_props slots maxGap t res
  have hperm1 : (group_consecutive_slots slots maxGap t res).Perm
      ((grouped_by_position slots maxGap t res).map setAvg) := by
    unfold group_consecutive_slots
    rw [if_neg (by simpa using hne)]
    exact List.perm_insertionSort groupLE _
  have hmap : ((grouped_by_position slots maxGap t res).map setAvg).map (fun g => g.slots)
      = (grouped_by_position slots maxGap t res).map fun g => g.slots := by
    rw [List.map_map]
    rfl
  have hflat : (((group_consecutive_slots slots maxGap t res).map fun g => g.slots).flatten).Perm
      (sortSlots slots) := by
    have h1 := (hperm1.map fun g => g.slots).flatten
    rw [hmap, hform.1] at h1
    exact h1
  refine ⟨?_, ?_, hform.1, ?_, ?_⟩
  · exact hflat.trans (List.perm_insertionSort slotLE slots)
  · have hr : ((group_consecutive_slots slots maxGap t res).map fun g => g.slots.length)
        = ((group_consecutive_slots slots maxGap t res).map fun g => g.slots).map
            List.length := by
      rw [List.map_map]
      rfl
    rw [hr, ← List.length_flatten]
    exact hflat.length_eq.trans (List.perm_insertionSort slotLE slots).length_eq
  · exact List.sorted_insertionSort slotLE slots
  · intro g hg
    obtain ⟨g', hg', rfl⟩ := mem_group_consecutive_slots hg
    have hp := hform.2 g' hg'
    exact ⟨hp.1, hp.2.1, hp.2.2.1, hp.2.2.2.1, hp.2.2.2.2.1⟩

/-- C9 witness: the partition theorem applied to a concrete singleton
input. -/
theorem claim_C9_witness :
    (([⟨1, 0, 5, none⟩] : List Slot) ≠ [])
    ∧ ((group_consecutive_slots [⟨1, 0, 5, none⟩] 60 2 60).map
        fun g => g.slots.length).sum = 1 :=
  ⟨by decide, (claim_C9_partition [⟨1, 0, 5, none⟩] 60 2 60 (by decide)).2.1⟩

theorem groupLoop_length_eq_cnt (maxGap : Int) (t : ℚ) (res : Int) :
    ∀ (l : List Slot) (cur : PriceBlock) (prev : Slot),
      (groupLoop maxGap t res cur prev l).length
        = cnt maxGap t res prev cur.min_price cur.max_price l := by
  intro l
  induction l with
  | nil => intro cur prev; rfl
  | cons c rest ih =>
    intro cur prev
    rw [groupLoop]
    simp only [cnt]
    by_cases hm : mergeCond maxGap t res cur.min_price cur.max_price prev c = true
    · rw [if_pos hm, if_pos hm, ih]
    · rw [if_neg hm, if_neg hm, List.length_cons, ih]
      simp [initGroup]
      omega

theorem cnt_pair (maxGap : Int) (t : ℚ) (res : Int) :
    ∀ (l : List Slot) (prev : Slot) (m1 M1 m2 M2 : ℚ), m2 ≤ m1 → M1 ≤ M2 →
      cnt maxGap t res prev m1 M1 l ≤ cnt maxGap t res prev m2 M2 l
      ∧ cnt maxGap t res prev m2 M2 l ≤ 1 + cnt maxGap t res prev m1 M1 l := by
  intro l
  induction l with
  | nil =>
    intro prev m1 M1 m2 M2 _ _
    constructor <;> simp [cnt]
  | cons c rest ih =>
    intro prev m1 M1 m2 M2 hm12 hM12
    have hminle : min m2 c.ct_per_kwh ≤ min m1 c.ct_per_kwh :=
      min_le_min hm12 (le_refl _)
    have hmaxle : max M1 c.ct_per_kwh ≤ max M2 c.ct_per_kwh :=
      max_le_max hM12 (le_refl _)
    have himp : mergeCond maxGap t res m2 M2 prev c = true →
        mergeCond maxGap t res m1 M1 prev c = true := by
      intro h
      rw [mergeCond, Bool.and_eq_true] at h ⊢
      have h2 := of_decide_eq_true h.2
      exact ⟨h.1, decide_eq_true (le_trans (sub_le_sub hmaxle hminle) h2)⟩
    simp only [cnt]
    by_cases h2 : mergeCond maxGap t res m2 M2 prev c = true
    · rw [if_pos (himp h2), if_pos h2]
      exact ih c _ _ _ _ hminle hmaxle
    · by_cases h1 : mergeCond maxGap t res m1 M1 prev c = true
      · rw [if_pos h1, if_neg h2]
        have hih := ih c c.ct_per_kwh c.ct_per_kwh
          (min m1 c.ct_per_kwh) (max M1 c.ct_per_kwh)
          (min_le_right _ _) (le_max_right _ _)
        exact ⟨hih.2, Nat.add_le_add_left hih.1 1⟩
      · rw [if_neg h1, if_neg h2]
        exact ⟨le_refl _, by omega⟩

theorem cnt_threshold (maxGap : Int) (res : Int) (t1 t2 : ℚ) (h : t2 ≤ t1) :
    ∀ (l : List Slot) (prev : Slot) (m M : ℚ),
      cnt maxGap t1 res prev m M l ≤ cnt maxGap t2 res prev m M l := by
  intro l
  induction l with
  | nil => intro prev m M; exact le_refl _
  | cons c rest ih =>
    intro prev m M
    have himp : mergeCond maxGap t2 res m M prev c = true →
        mergeCond maxGap t1 res m M prev c = true := by
      intro hc
      rw [mergeCond, Bool.and_eq_true] at hc ⊢
      exact ⟨hc.1, decide_eq_true (le_trans (of_decide_eq_true hc.2) h)⟩
    simp only [cnt]
    by_cases h2 : mergeCond maxGap t2 res m M prev c = true
    · rw [if_pos (himp h2), if_pos h2]
      exact ih c _ _
    · by_cases h1 : mergeCond maxGap t1 res m M prev c = true
      · rw [if_pos h1, if_neg h2]
        have hkey := (cnt_pair maxGap t1 res rest c c.ct_per_kwh c.ct_per_kwh
          (min m c.ct_per_kwh) (max M c.ct_per_kwh)
          (min_le_right _ _) (le_max_right _ _)).2
        have hstep := ih c c.ct_per_kwh c.ct_per_kwh
        omega
      · rw [if_neg h1, if_neg h2]
        have hstep := ih c c.ct_per_kwh c.ct_per_kwh
        omega

/-- C5: for a fixed slot list, time-gap bound and resolution, the number
of groups returned by `group_consecutive_slots` is antitone in the price
threshold: a smaller (stricter) threshold produces at least as many
groups. -/
theorem claim_C5_count_antitone (slots : List Slot) (maxGap : Int) (res : Int)
    (t1 t2 : ℚ) (h : t2 ≤ t1) :
    (group_consecutive_slots slots maxGap t1 res).length
      ≤ (group_consecutive_slots slots maxGap t2 res).length := by
  unfold group_consecutive_slots
  by_cases he : slots.isEmpty
  · rw [if_pos he, if_pos he]
  · rw [if_neg he, if_neg he,
      List.length_insertionSort, List.length_map,
      List.length_insertionSort, List.length_map]
    unfold grouped_by_position
    cases sortSlots slots with
    | nil => exact le_refl _
    | cons s0 rest =>
      rw [groupLoop_length_eq_cnt, groupLoop_length_eq_cnt]
      exact cnt_threshold maxGap res t1 t2 h rest s0 _ _

/-- C5 witness: the antitonicity theorem at a concrete two-slot input and
thresholds 2 and 0. -/
theorem claim_C5_witness :
    ((0 : ℚ) ≤ 2)
    ∧ (group_consecutive_slots [⟨1, 0, 0, none⟩, ⟨2, 60, 1, none⟩] 60 2 60).length
        ≤ (group_consecutive_slots [⟨1, 0, 0, none⟩, ⟨2, 60, 1, none⟩] 60 0 60).length :=
  ⟨by norm_num,
   claim_C5_count_antitone [⟨1, 0, 0, none⟩, ⟨2, 60, 1, none⟩] 60 60 2 0 (by norm_num)⟩

/-- C4 counterexample: with `max_price_gap = 0.5` and a one-slot input that
can only ever form one group, the initial grouping and the first retry
both yield fewer than `max_blocks = 2` groups, yet the function does NOT
retry a second time: `gap * 0.5 = 0.25` fails the `> 0.3` guard, so the
returned threshold is 0.25 and not the `max(0.3, gap * 0.25) = 0.3` the
claim mandates for a second retry. -/
theorem claim_C4_counterexample :
    (group_consecutive_slots [⟨1, 600, 5, some ("PT60M")⟩] 60 ((1 : ℚ)/2) 60).length < 2
    ∧ (group_consecutive_slots [⟨1, 600, 5, some ("PT60M")⟩] 60 ((1 : ℚ)/2 * (1/2)) 60).length < 2
    ∧ (process_day_grouping 0 1 [⟨1, 600, 5, some ("PT60M")⟩] 2 60 ((1 : ℚ)/2)).currentGap
        = 1/4
    ∧ ¬((1 : ℚ)/4 = max ((3 : ℚ)/10) ((1/2) * (1/4))) :=
  ⟨by with_unfolding_all decide, by with_unfolding_all decide,
   by with_unfolding_all rfl, by with_unfolding_all decide⟩

/-- C4 amended: for non-empty input, when the initial grouping yields fewer
than `max_blocks` groups the function retries with threshold `gap * 0.5`;
it retries exactly once more, with threshold `max(0.3, gap * 0.25)`, only
when the first retry still yields fewer than `max_blocks` groups AND the
halved threshold exceeds 0.3; in every case it returns whatever the final
attempt produced (reaching `max_blocks` is not guaranteed). -/
theorem claim_C4_fallback_amended (today slot_date : Int) (all_slots : List Slot)
    (max_blocks : Nat) (mtg : Int) (gap : ℚ) (hne : all_slots ≠ []) :
    (let res := detect_resolution all_slots
     let filtered := if slot_date = today then
        all_slots.filter fun s => belongs_to_today s.hour_local
       else all_slots
     let g1 := group_consecutive_slots filtered mtg gap res
     let g2 := group_consecutive_slots filtered mtg (gap * (1/2)) res
     let out := process_day_grouping today slot_date all_slots max_blocks mtg gap
     (max_blocks ≤ g1.length → out = ⟨g1, gap, false, res⟩)
     ∧ (g1.length < max_blocks → g2.length < max_blocks → (3 : ℚ)/10 < gap * (1/2) →
        out = ⟨group_consecutive_slots filtered mtg (max ((3 : ℚ)/10) (gap * (1/4))) res,
               max ((3 : ℚ)/10) (gap * (1/4)), true, res⟩)
     ∧ (g1.length < max_blocks → ¬(g2.length < max_blocks ∧ (3 : ℚ)/10 < gap * (1/2)) →
        out = ⟨g2, gap * (1/2), true, res⟩)) := by
  have hne' : all_slots.isEmpty = false := by
    simpa [List.isEmpty_iff] using hne
  refine ⟨?_, ?_, ?_⟩
  · intro h1
    simp only [process_day_grouping, hne', Bool.false_eq_true, if_false]
    rw [if_neg (not_lt.mpr h1)]
  · intro h1 h2 h3
    simp only [process_day_grouping, hne', Bool.false_eq_true, if_false]
    rw [if_pos h1, if_pos ⟨h2, h3⟩]
  · intro h1 h23
    simp only [process_day_grouping, hne', Bool.false_eq_true, if_false]
    rw [if_pos h1, if_neg h23]

/-- C4 witness: at a one-slot input with `max_blocks = 1` the initial
grouping already suffices, and the theorem yields the no-fallback outcome. -/
theorem claim_C4_witness :
    (process_day_grouping 0 1 [⟨1, 600, 5, some ("PT60M")⟩] 1 60 2).fallbackApplied
      = false := by
  have h := (claim_C4_fallback_amended 0 1 [⟨1, 600, 5, some ("PT60M")⟩] 1 60 2
    (by decide)).1 (by with_unfolding_all decide)
  rw [h]

theorem maxByPrice_mem (xs : List Slot) : ∀ b : Slot, maxByPrice b xs ∈ b :: xs := by
  induction xs with
  | nil => intro b; simp [maxByPrice]
  | cons x rest ih =>
    intro b
    show List.foldl _ _ (x :: rest) ∈ _
    rw [List.foldl_cons]
    by_cases hc : b.ct_per_kwh < x.ct_per_kwh
    · rw [if_pos hc]
      exact List.mem_cons_of_mem _ (ih x)
    · rw [if_neg hc]
      have hmem : maxByPrice b rest ∈ b :: x :: rest := by
        rcases List.mem_cons.mp (ih b) with h' | h'
        · rw [h']
          exact List.mem_cons_self _ _
        · exact List.mem_cons_of_mem _ (List.mem_cons_of_mem _ h')
      exact hmem

theorem bestWindow_go_mem :
    ∀ (ws : List (List Slot)) (acc : Option (List Slot)) (w : List Slot),
      ws.foldl (fun acc w =>
        match acc with
        | none => some w
        | some b => if windowAvg b < windowAvg w then some w else acc) acc = some w →
      w ∈ ws ∨ acc = some w := by
  intro ws
  induction ws with
  | nil => intro acc w h; right; exact h
  | cons x rest ih =>
    intro acc w h
    rw [List.foldl_cons] at h
    rcases ih _ w h with h' | h'
    · left; exact List.mem_cons_of_mem _ h'
    · cases acc with
      | none =>
        left
        have hx : x = w := by simpa using h'
        exact hx ▸ List.mem_cons_self _ _
      | some b =>
        have h'' : (if windowAvg b < windowAvg x then some x else some b) = some w := h'
        by_cases hc : windowAvg b < windowAvg x
        · left
          rw [if_pos hc] at h''
          have hx : x = w := by simpa using h''
          exact hx ▸ List.mem_cons_self _ _
        · right
          rw [if_neg hc] at h''
          exact h''

theorem bestWindow_mem (ws : List (List Slot)) (w : List Slot)
    (h : bestWindow ws = some w) : w ∈ ws := by
  unfold bestWindow at h
  rcases bestWindow_go_mem ws none w h with h' | h'
  · exact h'
  · exact Option.noConfusion h'

theorem fmeh_core_slots_mem (l : List Slot) (res : Int) (eh : ExpensiveHour)
    (h : fmeh_core l res = some eh) : ∀ s ∈ eh.slots, s ∈ l := by
  cases l with
  | nil => exact Option.noConfusion h
  | cons f0 frest =>
    simp only [fmeh_core] at h
    by_cases hres : res = 60
    · rw [if_pos hres, Option.some_inj] at h
      subst h
      intro s hs
      have hs' : s = maxByPrice f0 frest := by simpa [singleSlotEH] using hs
      exact hs' ▸ maxByPrice_mem frest f0
    · rw [if_neg hres] at h
      cases hbw : bestWindow ((windowsOf (sortSlots (f0 :: frest))).filter
          consecutiveWindow) with
      | some w =>
        rw [hbw, Option.some_inj] at h
        subst h
        intro s hs
        have hsw : s ∈ w := hs
        have hw := bestWindow_mem _ _ hbw
        have hw2 : w ∈ windowsOf (sortSlots (f0 :: frest)) := (List.mem_filter.mp hw).1
        unfold windowsOf at hw2
        split_ifs at hw2 with hlen
        · exact absurd hw2 (by simp)
        · obtain ⟨i, _, hiw⟩ := List.mem_map.mp hw2
          have hsub : (((sortSlots (f0 :: frest)).drop i).take 4).Sublist
              (sortSlots (f0 :: frest)) :=
            (List.take_sublist _ _).trans (List.drop_sublist _ _)
          have hss : s ∈ sortSlots (f0 :: frest) := hsub.subset (hiw ▸ hsw)
          rw [sortSlots, List.mem_insertionSort] at hss
          exact hss
      | none =>
        rw [hbw, Option.some_inj] at h
        subst h
        intro s hs
        have hs' : s = maxByPrice f0 frest := by simpa [singleSlotEH] using hs
        exact hs' ▸ maxByPrice_mem frest f0

/-- C6: when the target date is today, no slot contained in the window
returned by `find_most_expensive_hour` is classified as past by
`is_past_slot` (at any resolution, in particular 60 and 15 minutes); when
the target date differs from today (e.g. a future date), the filter is
skipped and all slots of the day are eligible. -/
theorem claim_C6_avoid_excludes_past (now today : Int) (slots : List Slot)
    (d res : Int) :
    (d = today → ∀ eh, find_most_expensive_hour now today slots d res = some eh →
      ∀ s ∈ eh.slots, is_past_slot now today s.hour_local d res = false)
    ∧ (d ≠ today → find_most_expensive_hour now today slots d res
        = fmeh_core slots res) := by
  constructor
  · intro hd eh heh s hs
    rw [find_most_expensive_hour] at heh
    by_cases he : slots.isEmpty
    · rw [if_pos he] at heh
      exact Option.noConfusion heh
    · rw [if_neg he] at heh
      simp only [if_pos hd] at heh
      have hmem := fmeh_core_slots_mem _ _ _ heh s hs
      have hfut := (List.mem_filter.mp hmem).2
      unfold is_current_or_future_slot at hfut
      simpa using hfut
  · intro hd
    rw [find_most_expensive_hour]
    by_cases he : slots.isEmpty
    · rw [if_pos he]
      have hnil : slots = [] := by simpa [List.isEmpty_iff] using he
      rw [hnil]
      rfl
    · rw [if_neg he]
      simp only [if_neg hd]

set_option maxRecDepth 10000 in
/-- C6 witness: the exclusion theorem applied at a concrete current-day
input whose avoid window is the single 10:00 slot. -/
theorem claim_C6_witness :
    is_past_slot 0 0 600 0 60 = false :=
  (claim_C6_avoid_excludes_past 0 0 [⟨1, 600, 5, some ("PT60M")⟩] 0 60).1 rfl
    (singleSlotEH ⟨1, 600, 5, some ("PT60M")⟩ 60 60)
    (by with_unfolding_all rfl)
    ⟨1, 600, 5, some ("PT60M")⟩
    (by with_unfolding_all decide)
